import Mathlib

/-!
# Verification of the alvan-lic token codec and verification protocol

Shallow embedding of `src/generator.ts`, `src/validator.ts`, `src/error.ts`
and `src/constants.ts` of the alvan-lic Node.js package.

Modelling conventions:
* Bytes are `Nat` values below 256; byte buffers (`Buffer`) are `List Nat`.
* JS strings are Lean `String`s; the JS string operations used by the code
  (`startsWith`, `slice`, `split`, `parseInt`, `trim`, template literals)
  are modelled by explicit functions over the underlying `List Char`.
* JS numbers are modelled exactly: integer-valued quantities as `Int`
  (timestamps in milliseconds / seconds) and possibly-fractional quantities
  (the `hours` duration, `hoursRemaining`) as `ℚ`.  This is exact where the
  double-precision source is exact (all claim-relevant inputs are well below
  2^53); float rounding of enormous values is outside the model.  The float
  values `NaN`/`Infinity` for `hours` are outside the model; an invalid
  (`NaN`) JS `Date` is modelled as `Option.none`.
* Platform primitives used by the source (`crypto.createHmac('sha256',...)`,
  `crypto.timingSafeEqual`, `Buffer.from(s,'base64')`, `Buffer.toString('utf8')`,
  `new Date(ms).getTime()`) are embedded with their documented semantics:
  - HMAC-SHA256 is implemented in full (FIPS 180-4 / RFC 2104);
  - `timingSafeEqual` throws a `RangeError` when the two buffers have
    different byte lengths (modelled as a distinct error outcome);
  - `Buffer.from(s,'base64')` is lenient: characters outside the base64
    alphabet are ignored and the call never throws;
  - `new Date(v)` applies the ECMAScript `TimeClip`: values of magnitude
    greater than 8.64e15 give an invalid date, and fractional milliseconds
    are truncated toward zero.
-/

set_option maxRecDepth 16384
set_option maxHeartbeats 2000000

namespace AlvanLic

/-! ## 32-bit word helpers (all arithmetic is `Nat` reduced mod 2^32) -/

def w32 (n : Nat) : Nat := n % 4294967296

def rotr32 (r b : Nat) : Nat := w32 ((b >>> r) ||| (b <<< (32 - r)))

/-! ## SHA-256 (FIPS 180-4), executable

The compression state is an eight-word record; messages and digests are
byte lists. -/

structure Sha256St where
  a : Nat
  b : Nat
  c : Nat
  d : Nat
  e : Nat
  f : Nat
  g : Nat
  hh : Nat
deriving Repr, DecidableEq

def sha256Init : Sha256St :=
  ⟨1779033703, 3144134277, 1013904242, 2773480762,
   1359893119, 2600822924, 528734635, 1541459225⟩

def sha256K : List Nat :=
  [1116352408, 1899447441, 3049323471, 3921009573, 961987163, 1508970993,
   2453635748, 2870763221, 3624381080, 310598401, 607225278, 1426881987,
   1925078388, 2162078206, 2614888103, 3248222580, 3835390401, 4022224774,
   264347078, 604807628, 770255983, 1249150122, 1555081692, 1996064986,
   2554220882, 2821834349, 2952996808, 3210313671, 3336571891, 3584528711,
   113926993, 338241895, 666307205, 773529912, 1294757372, 1396182291,
   1695183700, 1986661051, 2177026350, 2456956037, 2730485921, 2820302411,
   3259730800, 3345764771, 3516065817, 3600352804, 4094571909, 275423344,
   430227734, 506948616, 659060556, 883997877, 958139571, 1322822218,
   1537002063, 1747873779, 1955562222, 2024104815, 2227730452, 2361852424,
   2428436474, 2756734187, 3204031479, 3329325298]

/-- Big-endian bytes of `n`, exactly `k` bytes (most significant first). -/
def beBytes : Nat → Nat → List Nat
  | 0, _ => []
  | k + 1, n => beBytes k (n >>> 8) ++ [n % 256]

/-- Group a byte list into big-endian 32-bit words (4 bytes per word);
a trailing group of fewer than 4 bytes is dropped (never happens on
block-aligned input). -/
def bytesToWords : List Nat → List Nat
  | a :: b :: c :: d :: rest =>
      ((a <<< 24) + (b <<< 16) + (c <<< 8) + d) :: bytesToWords rest
  | _ => []

/-- Message-schedule extension: append `k` further words to `w`. -/
def extendW : Nat → List Nat → List Nat
  | 0, w => w
  | k + 1, w =>
      let n := w.length
      let s0 := (rotr32 7 (w.getD (n - 15) 0)) ^^^ (rotr32 18 (w.getD (n - 15) 0)) ^^^
                ((w.getD (n - 15) 0) >>> 3)
      let s1 := (rotr32 17 (w.getD (n - 2) 0)) ^^^ (rotr32 19 (w.getD (n - 2) 0)) ^^^
                ((w.getD (n - 2) 0) >>> 10)
      extendW k (w ++ [w32 (w.getD (n - 16) 0 + s0 + w.getD (n - 7) 0 + s1)])

/-- One round of the SHA-256 compression loop; `kw` is `K[i] + W[i]`. -/
def sha256Round (st : Sha256St) (kw : Nat) : Sha256St :=
  let S1 := (rotr32 6 st.e) ^^^ (rotr32 11 st.e) ^^^ (rotr32 25 st.e)
  let ch := (st.e &&& st.f) ^^^ ((4294967295 - w32 st.e) &&& st.g)
  let t1 := w32 (st.hh + S1 + ch + kw)
  let S0 := (rotr32 2 st.a) ^^^ (rotr32 13 st.a) ^^^ (rotr32 22 st.a)
  let mj := (st.a &&& st.b) ^^^ (st.a &&& st.c) ^^^ (st.b &&& st.c)
  let t2 := w32 (S0 + mj)
  ⟨w32 (t1 + t2), st.a, st.b, st.c, w32 (st.d + t1), st.e, st.f, st.g⟩

/-- Compress one 64-byte block (given as its 16 data words) into the state. -/
def sha256Compress (st : Sha256St) (block : List Nat) : Sha256St :=
  let w := extendW 48 block
  let r := (sha256K.zip w).foldl (fun s p => sha256Round s (w32 (p.1 + p.2))) st
  ⟨w32 (st.a + r.a), w32 (st.b + r.b), w32 (st.c + r.c), w32 (st.d + r.d),
   w32 (st.e + r.e), w32 (st.f + r.f), w32 (st.g + r.g), w32 (st.hh + r.hh)⟩

/-- SHA-256 padding: append 0x80, zeros to 56 mod 64, then the 64-bit
big-endian bit length. -/
def sha256Pad (msg : List Nat) : List Nat :=
  msg ++ 128 :: List.replicate ((119 - msg.length % 64) % 64) 0
      ++ beBytes 8 (8 * msg.length)

/-- Process the padded byte stream 64 bytes at a time (fuel-driven so that
the definition is structural and kernel-reducible). -/
def sha256Blocks : Nat → Sha256St → List Nat → Sha256St
  | 0, st, _ => st
  | _ + 1, st, [] => st
  | fuel + 1, st, bytes =>
      sha256Blocks fuel (sha256Compress st (bytesToWords (bytes.take 64))) (bytes.drop 64)

def sha256StBytes (st : Sha256St) : List Nat :=
  beBytes 4 st.a ++ beBytes 4 st.b ++ beBytes 4 st.c ++ beBytes 4 st.d ++
  beBytes 4 st.e ++ beBytes 4 st.f ++ beBytes 4 st.g ++ beBytes 4 st.hh

/-- SHA-256 digest of a byte list (32 bytes). -/
def sha256 (msg : List Nat) : List Nat :=
  let padded := sha256Pad msg
  sha256StBytes (sha256Blocks (padded.length + 1) sha256Init padded)

/-- HMAC-SHA256 (RFC 2104) with SHA-256 block size 64.  Models
`crypto.createHmac('sha256', key).update(msg).digest()`. -/
def hmacSha256 (key msg : List Nat) : List Nat :=
  let k0 := if 64 < key.length then sha256 key else key
  let kp := k0 ++ List.replicate (64 - k0.length) 0
  sha256 ((kp.map (fun b => b ^^^ 0x5c)) ++ sha256 ((kp.map (fun b => b ^^^ 0x36)) ++ msg))

/-! ## Base64 (standard alphabet), URL-safe transform, lenient decoding -/

/-- Character of a sextet value in the standard base64 alphabet. -/
def sextetChar (v : Nat) : Char :=
  "ABCDEFGHIJKLMNOPQRSTUVWXYZabcdefghijklmnopqrstuvwxyz0123456789+/".data.getD v '?'

/-- Inverse of `sextetChar`; `none` for every character outside the standard
base64 alphabet (including `=`).  Models the per-character behaviour of
Node's lenient base64 decoder, which skips unrecognized characters. -/
def sextetOfChar (c : Char) : Option Nat :=
  if 'A' ≤ c ∧ c ≤ 'Z' then some (c.toNat - 65)
  else if 'a' ≤ c ∧ c ≤ 'z' then some (c.toNat - 97 + 26)
  else if '0' ≤ c ∧ c ≤ '9' then some (c.toNat - 48 + 52)
  else if c = '+' then some 62
  else if c = '/' then some 63
  else none

/-- Standard base64 encoding of a byte list, with `=` padding.  Models
`buffer.toString('base64')`. -/
def stdB64 : List Nat → List Char
  | [] => []
  | [a] => [sextetChar (a / 4), sextetChar (a % 4 * 16), '=', '=']
  | [a, b] => [sextetChar (a / 4), sextetChar (a % 4 * 16 + b / 16),
               sextetChar (b % 16 * 4), '=']
  | a :: b :: c :: rest =>
      sextetChar (a / 4) :: sextetChar (a % 4 * 16 + b / 16) ::
      sextetChar (b % 16 * 4 + c / 64) :: sextetChar (c % 64) :: stdB64 rest

/-- Reassemble bytes from a sextet stream, dropping any trailing group that
does not complete a byte.  Together with the character filtering this is
Node's lenient `Buffer.from(s, 'base64')`. -/
def sextetsToBytes : List Nat → List Nat
  | a :: b :: c :: d :: rest =>
      (a * 4 + b / 16) :: (b % 16 * 16 + c / 4) :: (c % 4 * 64 + d) :: sextetsToBytes rest
  | [a, b, c] => [a * 4 + b / 16, b % 16 * 16 + c / 4]
  | [a, b] => [a * 4 + b / 16]
  | _ => []

/-- `LicenseGenerator.toBase64Url` (generator.ts:95-101): standard base64,
then `+`→`-`, `/`→`_`, and all `=` removed. -/
def toBase64Url (bytes : List Nat) : List Char :=
  ((stdB64 bytes).map (fun c => if c = '+' then '-' else if c = '/' then '_' else c)).filter
    (fun c => c ≠ '=')

/-- `LicenseValidator.fromBase64Url` (validator.ts:186-204): re-pad to a
multiple of 4 with `=`, map `-`→`+`, `_`→`/`, then decode.  The decode is
Node's lenient `Buffer.from(base64, 'base64')`, which ignores characters
outside the base64 alphabet and never throws, so the source's catch branch
is unreachable. -/
def fromBase64Url (s : List Char) : List Nat :=
  let padded := s ++ List.replicate (if s.length % 4 = 0 then 0 else 4 - s.length % 4) '='
  let replaced := padded.map (fun c => if c = '-' then '+' else if c = '_' then '/' else c)
  sextetsToBytes (replaced.filterMap sextetOfChar)

/-! ## UTF-8 (`Buffer.from(s, 'utf8')` / `buffer.toString('utf8')`) -/

/-- UTF-8 encoding of one Unicode scalar value. -/
def utf8EncChar (n : Nat) : List Nat :=
  if n < 0x80 then [n]
  else if n < 0x800 then [0xc0 + n / 64, 0x80 + n % 64]
  else if n < 0x10000 then [0xe0 + n / 4096, 0x80 + n / 64 % 64, 0x80 + n % 64]
  else [0xf0 + n / 262144, 0x80 + n / 4096 % 64, 0x80 + n / 64 % 64, 0x80 + n % 64]

/-- `Buffer.from(s, 'utf8')`.  Lean `Char` carries Unicode scalar values
only, matching well-formed JS strings (lone surrogates are outside the
model). -/
def utf8Encode (s : List Char) : List Nat :=
  s.flatMap (fun c => utf8EncChar c.toNat)

def isCont (b : Nat) : Bool := 0x80 ≤ b ∧ b < 0xc0

/-- `buffer.toString('utf8')`: UTF-8 decoding with U+FFFD replacement for
invalid bytes.  (On invalid sequences Node emits replacement characters;
the exact grouping of invalid bytes into replacements differs in corners
never exercised by the claims, which only interpret all-ASCII payloads.) -/
def utf8DecF : Nat → List Nat → List Char
  | 0, _ => []
  | _ + 1, [] => []
  | fuel + 1, b :: rest =>
    if b < 0x80 then Char.ofNat b :: utf8DecF fuel rest
    else if 0xc2 ≤ b ∧ b < 0xe0 then
      match rest with
      | b2 :: r2 =>
        if isCont b2 then Char.ofNat ((b - 0xc0) * 64 + (b2 - 0x80)) :: utf8DecF fuel r2
        else Char.ofNat 0xfffd :: utf8DecF fuel rest
      | [] => [Char.ofNat 0xfffd]
    else if 0xe0 ≤ b ∧ b < 0xf0 then
      match rest with
      | b2 :: b3 :: r3 =>
        if isCont b2 ∧ isCont b3 then
          let v := (b - 0xe0) * 4096 + (b2 - 0x80) * 64 + (b3 - 0x80)
          (if 0x800 ≤ v ∧ ¬ (0xd800 ≤ v ∧ v < 0xe000) then Char.ofNat v
           else Char.ofNat 0xfffd) :: utf8DecF fuel r3
        else Char.ofNat 0xfffd :: utf8DecF fuel rest
      | _ => [Char.ofNat 0xfffd]
    else if 0xf0 ≤ b ∧ b < 0xf5 then
      match rest with
      | b2 :: b3 :: b4 :: r4 =>
        if isCont b2 ∧ isCont b3 ∧ isCont b4 then
          let v := (b - 0xf0) * 262144 + (b2 - 0x80) * 4096 + (b3 - 0x80) * 64 + (b4 - 0x80)
          (if 0x10000 ≤ v ∧ v < 0x110000 then Char.ofNat v
           else Char.ofNat 0xfffd) :: utf8DecF fuel r4
        else Char.ofNat 0xfffd :: utf8DecF fuel rest
      | _ => [Char.ofNat 0xfffd]
    else Char.ofNat 0xfffd :: utf8DecF fuel rest

/-- `buffer.toString('utf8')` (fuel instantiated with the buffer length). -/
def utf8Dec (l : List Nat) : List Char := utf8DecF l.length l

/-! ## JS string and number helpers -/

/-- JS `String.prototype.split` with a single-character separator:
`"".split(sep)` is `[""]`, adjacent separators yield empty parts. -/
def jsSplit (sep : Char) : List Char → List (List Char)
  | [] => [[]]
  | c :: rest =>
      let r := jsSplit sep rest
      if c = sep then [] :: r else (c :: r.headD []) :: r.tail

/-- The ECMAScript WhiteSpace and LineTerminator characters recognised by
`String.prototype.trim` and skipped by `parseInt`: TAB, LF, VT, FF, CR,
SP, NBSP, ZWNBSP, LS, PS, and the Unicode Space_Separator code points
(U+1680, U+2000-200A, U+202F, U+205F, U+3000). -/
def jsWs (c : Char) : Bool :=
  c = ' ' ∨ c = '\t' ∨ c = '\n' ∨ c = '\r' ∨ c.toNat = 0x0b ∨ c.toNat = 0x0c ∨
  c.toNat = 0xa0 ∨ c.toNat = 0x1680 ∨ (0x2000 ≤ c.toNat ∧ c.toNat ≤ 0x200a) ∨
  c.toNat = 0x202f ∨ c.toNat = 0x205f ∨ c.toNat = 0x3000 ∨
  c.toNat = 0xfeff ∨ c.toNat = 0x2028 ∨ c.toNat = 0x2029

/-- JS `String.prototype.trim`. -/
def jsTrim (s : List Char) : List Char :=
  ((s.dropWhile jsWs).reverse.dropWhile jsWs).reverse

def isDigitCh (c : Char) : Bool := '0' ≤ c ∧ c ≤ '9'

def digitsVal (l : List Char) : Nat :=
  l.foldl (fun acc c => acc * 10 + (c.toNat - 48)) 0

/-- JS `parseInt(s, 10)`: skip leading whitespace, optional sign, then the
longest prefix of decimal digits; `none` models `NaN` (no digits).  Any
trailing non-digit characters are ignored.  (Exact up to the 2^53 float
precision of JS numbers; all claim-relevant values are far smaller.) -/
def jsParseInt (s : List Char) : Option Int :=
  let t := s.dropWhile jsWs
  let (sign, u) : Int × List Char :=
    match t with
    | '-' :: r => (-1, r)
    | '+' :: r => (1, r)
    | r => (1, r)
  let ds := u.takeWhile isDigitCh
  if ds = [] then none else some (sign * digitsVal ds)

/-- Decimal digit characters of a natural number, most significant first
(fuel-driven structural recursion; `natDecChars` supplies enough fuel). -/
def decDigitsRev : Nat → Nat → List Char
  | 0, _ => []
  | fuel + 1, n =>
      if n = 0 then [] else Char.ofNat (48 + n % 10) :: decDigitsRev fuel (n / 10)

/-- Decimal notation of a natural number, as produced by a JS template
literal for an integral number. -/
def natDecChars (n : Nat) : List Char :=
  if n = 0 then ['0'] else (decDigitsRev n n).reverse

/-- Decimal notation of an integer (JS template literal). -/
def intDecChars (i : Int) : List Char :=
  if i < 0 then '-' :: natDecChars i.natAbs else natDecChars i.natAbs

/-! ## JS `Date` and number-to-millisecond conversions -/

/-- The ECMAScript `TimeClip` bound: 8.64e15 milliseconds. -/
def maxDateMs : Int := 8640000000000000

/-- Truncation toward zero of a rational (ECMAScript `ToIntegerOrInfinity`
as applied by the `Date` constructor to its millisecond argument). -/
def truncQ (q : ℚ) : Int := if q < 0 then -⌊-q⌋ else ⌊q⌋

/-- `new Date(v)` for a finite numeric `v` (milliseconds): an invalid date
(`getTime()` is `NaN`, modelled `none`) when the magnitude exceeds
8.64e15, otherwise the truncated integral millisecond value. -/
def jsDateOf (v : ℚ) : Option Int :=
  let t := truncQ v
  if t.natAbs ≤ 8640000000000000 then some t else none

/-- `Math.floor(x / 1000)` for an integer millisecond count `x`.  Lean's
`Int` division `/` rounds toward negative infinity for a positive divisor,
which is exactly `Math.floor` of the exact quotient. -/
def floorDiv1000 (x : Int) : Int := x / 1000

/-! ## Error taxonomy (error.ts) and validation outcome -/

/-- `LicenseErrorType` (error.ts:5-12), plus `rangeErr` for the untyped
`RangeError` that `crypto.timingSafeEqual` throws when its two buffer
arguments have different byte lengths — that throw escapes
`validateKeyAtTime` uncaught, so it is a distinct observable outcome,
not a `LicenseError`. -/
inductive VErr where
  | invalidFormat
  | invalidSignature
  | expired
  | invalidData
  | base64Err
  | timeErr
  | rangeErr
deriving Repr, DecidableEq

/-- `LicenseInfo` (validator.ts:12-21); the two `Date` fields are carried
as integer milliseconds and `hoursRemaining` as an exact rational. -/
structure LicenseInfo where
  isValid : Bool
  issuedAtMs : Int
  expiresAtMs : Int
  hoursRemaining : ℚ
deriving Repr, DecidableEq

instance {α β : Type} [DecidableEq α] [DecidableEq β] : DecidableEq (Except α β) :=
  fun a b =>
    match a, b with
    | .ok x, .ok y =>
        match decEq x y with
        | isTrue h => isTrue (by rw [h])
        | isFalse h => isFalse (by intro hc; injection hc; contradiction)
    | .error x, .error y =>
        match decEq x y with
        | isTrue h => isTrue (by rw [h])
        | isFalse h => isFalse (by intro hc; injection hc; contradiction)
    | .ok _, .error _ => isFalse (by intro hc; injection hc)
    | .error _, .ok _ => isFalse (by intro hc; injection hc)

/-- `LICENSE_PREFIX` (constants.ts): the fixed 6-character marker. -/
def licenseMarker : List Char := ['a', 'l', 'v', 'a', 'n', '-']

/-- Constructor guard shared by `LicenseGenerator` and `LicenseValidator`
(generator.ts:26-31, validator.ts:40-45): `!secretKey ||
secretKey.trim().length === 0` rejects the secret. -/
def secretRejected (secretKey : String) : Bool :=
  secretKey.data = [] ∨ (jsTrim secretKey.data).length = 0

/-- Errors thrown by `generateKeyWithTimestamp` (plain `Error`s). -/
inductive GenErr where
  | hoursNotPositive
  | invalidIssuedAt
deriving Repr, DecidableEq

/-- `LicenseGenerator.generateKeyWithTimestamp` (generator.ts:57-89).
`hours` is the (finite) numeric duration; `issuedAt` is a JS `Date`
modelled as `Option Int` milliseconds (`none` = invalid date). -/
def generateKeyWithTimestamp (secretKey : String) (hours : ℚ)
    (issuedAt : Option Int) : Except GenErr String :=
  if hours ≤ 0 then .error .hoursNotPositive
  else
    match issuedAt with
    | none => .error .invalidIssuedAt
    | some t =>
      -- const expiresAt = new Date(issuedAt.getTime() + hours*60*60*1000)
      let expiresAt : Option Int := jsDateOf ((t : ℚ) + hours * 3600000)
      -- timestamps in seconds;  Math.floor(NaN) is NaN and `${NaN}` is "NaN"
      let issuedTimestamp : Int := floorDiv1000 t
      let expiresStr : List Char :=
        match expiresAt with
        | some e => intDecChars (floorDiv1000 e)
        | none => ['N', 'a', 'N']
      let payload : List Char := intDecChars issuedTimestamp ++ ':' :: expiresStr
      let signature := hmacSha256 (utf8Encode secretKey.data) (utf8Encode payload)
      let data := utf8Encode payload ++ 46 :: signature
      .ok (String.mk (licenseMarker ++ toBase64Url data))

/-- First index of byte 46 (`'.'`), i.e.
`data.indexOf(Buffer.from('.', 'utf8'))`; `none` models `-1`. -/
def sepIdx : List Nat → Option Nat
  | [] => none
  | b :: rest => if b = 46 then some 0 else (sepIdx rest).map (· + 1)

/-- The payload-interpretation tail of `validateKeyAtTime`
(validator.ts:119-181), reached only after the signature gate: split on
`:`, parse the two parts with `parseInt`, range/ordering checks, then the
temporal gate.  Note every throw inside the `try` block of lines 130-146
— including the `invalidData` throw for an empty part — is caught and
rewrapped by `LicenseError.timeError`, so it surfaces as `TIME_ERROR`. -/
def parsePayloadStr (payloadStr : List Char) (currentMs : Int) :
    Except VErr LicenseInfo :=
  let parts := jsSplit ':' payloadStr
  if parts.length ≠ 2 then .error .invalidFormat
  else
    let issuedPart := parts.getD 0 []
    let expiresPart := parts.getD 1 []
    if issuedPart = [] ∨ expiresPart = [] then .error .timeErr
    else
      -- parseInt both parts; `isNaN(...)` is `Option.isNone` in the model
      let oi := jsParseInt issuedPart
      let oe := jsParseInt expiresPart
      if oi = none ∨ oe = none then .error .timeErr
      else
        let issuedTimestamp := oi.getD 0
        let expiresTimestamp := oe.getD 0
        if issuedTimestamp ≤ 0 ∨ expiresTimestamp ≤ 0 then .error .invalidData
        else if expiresTimestamp ≤ issuedTimestamp then .error .invalidData
        else
          -- new Date(ts * 1000) and the isNaN validity check
          let issuedMs := issuedTimestamp * 1000
          let expiresMs := expiresTimestamp * 1000
          if maxDateMs < issuedMs.natAbs ∨ maxDateMs < expiresMs.natAbs then
            .error .timeErr
          else
            let isValid := currentMs < expiresMs
            let hoursRemaining : ℚ :=
              if isValid then max 0 (((expiresMs - currentMs : Int) : ℚ) / 3600000) else 0
            if ¬ isValid then .error .expired
            else .ok ⟨isValid, issuedMs, expiresMs, hoursRemaining⟩

/-- `LicenseValidator.validateKeyAtTime` (validator.ts:79-181).
`currentMs` is `currentTime.getTime()`.  The base64 decode never throws
(lenient Node decoder), so the `BASE64_ERROR` catch branch of lines 93-97
is unreachable; `timingSafeEqual` on buffers of different lengths throws
`RangeError` (`VErr.rangeErr`). -/
def validateKeyAtTime (secretKey licenseKey : String) (currentMs : Int) :
    Except VErr LicenseInfo :=
  if licenseKey.data = [] then .error .invalidFormat
  else if ¬ licenseMarker.isPrefixOf licenseKey.data then .error .invalidFormat
  else
    let encoded := licenseKey.data.drop 6
    let data := fromBase64Url encoded
    match sepIdx data with
    | none => .error .invalidFormat
    | some si =>
      let payload := data.take si
      let providedSignature := data.drop (si + 1)
      let expectedSignature := hmacSha256 (utf8Encode secretKey.data) payload
      if providedSignature.length = expectedSignature.length then
        if providedSignature = expectedSignature then
          parsePayloadStr (utf8Dec payload) currentMs
        else .error .invalidSignature
      else .error .rangeErr

/-! ## Crafted tokens used by the theorems -/

/-- A token carrying an arbitrary payload string `p`, signed with `secret`
exactly as the issuer signs its payload (wire format of spec §6):
`"alvan-" ++ base64url_nopad(utf8(p) ++ 0x2E ++ hmac_sha256(secret, utf8(p)))`. -/
def mkTokenP (secret : String) (p : List Char) : String :=
  String.mk (licenseMarker ++ toBase64Url
    (utf8Encode p ++ 46 :: hmacSha256 (utf8Encode secret.data) (utf8Encode p)))

/-- A structurally valid, correctly signed token with payload
`"<i>:<e>"` (decimal seconds). -/
def mkToken (secret : String) (i e : Int) : String :=
  mkTokenP secret (intDecChars i ++ ':' :: intDecChars e)

/-- The token string exactly as claim C7 (spec §4.2 and §6) words it:
`"alvan-" + base64url_nopad(ASCII("<issued_seconds>:<expires_seconds>") || 0x2E ||
hmac_sha256(secret, payload_bytes))` with `issued_seconds = floor(t in seconds)`
and `expires_seconds = floor((t + hours*3600) in seconds)`.  This is the
spec-side definition used to compare against `generateKeyWithTimestamp`. -/
def specTokenC7 (secret : String) (hours : ℚ) (t : Int) : String :=
  let issuedS : Int := ⌊(t : ℚ) / 1000⌋
  let expiresS : Int := ⌊((t : ℚ) + hours * 3600000) / 1000⌋
  mkTokenP secret (intDecChars issuedS ++ ':' :: intDecChars expiresS)

/-- A concrete valid token: secret `"test"`, one hour, issued at
1700000000000 ms (2023-11-14T22:13:20Z). -/
def c5ValidToken : String :=
  match generateKeyWithTimestamp "test" 1 (some 1700000000000) with
  | .ok s => s
  | .error _ => ""

/-- `c5ValidToken` with its final character (a signature-region base64
character) replaced by `'!'`. -/
def c5Tampered : String := String.mk (c5ValidToken.data.dropLast ++ ['!'])

/-! ## Digest shape lemmas -/

theorem beBytes_length (k n : Nat) : (beBytes k n).length = k := by
  induction k generalizing n with
  | zero => rfl
  | succ k ih => simp [beBytes, ih]

theorem beBytes_lt (k n : Nat) : ∀ b ∈ beBytes k n, b < 256 := by
  induction k generalizing n with
  | zero => simp [beBytes]
  | succ k ih =>
    intro b hb
    simp only [beBytes, List.mem_append, List.mem_singleton] at hb
    rcases hb with h | h
    · exact ih _ _ h
    · omega

theorem sha256_length (msg : List Nat) : (sha256 msg).length = 32 := by
  simp [sha256, sha256StBytes, beBytes_length]

theorem sha256_lt (msg : List Nat) : ∀ b ∈ sha256 msg, b < 256 := by
  intro b hb
  simp only [sha256, sha256StBytes, List.mem_append] at hb
  rcases hb with ((((((h | h) | h) | h) | h) | h) | h) | h <;> exact beBytes_lt _ _ _ h

theorem hmacSha256_length (key msg : List Nat) : (hmacSha256 key msg).length = 32 := by
  simp [hmacSha256, sha256_length]

theorem hmacSha256_lt (key msg : List Nat) : ∀ b ∈ hmacSha256 key msg, b < 256 := by
  simp only [hmacSha256]
  exact sha256_lt _

/-! ## Base64 round-trip -/

/-- Composite per-character decode applied by `fromBase64Url`: undo the
URL-safe substitution, then look the character up in the standard
alphabet. -/
def b64Back (c : Char) : Option Nat :=
  sextetOfChar (if c = '-' then '+' else if c = '_' then '/' else c)

theorem b64Back_sextetChar (v : Nat) (hv : v < 64) :
    b64Back (if sextetChar v = '+' then '-'
             else if sextetChar v = '/' then '_' else sextetChar v) = some v := by
  revert hv
  revert v
  decide

theorem b64Back_eq : b64Back '=' = none := by decide

theorem filterMap_b64Back_replicate (n : Nat) :
    List.filterMap b64Back (List.replicate n '=') = [] := by
  induction n with
  | zero => rfl
  | succ n ih => simp [List.replicate, ih, b64Back_eq]

theorem filterMap_filter_of_none {α β : Type} (f : α → Option β) (p : α → Bool)
    (l : List α) (h : ∀ a, p a = false → f a = none) :
    List.filterMap f (l.filter p) = List.filterMap f l := by
  induction l with
  | nil => rfl
  | cons a t ih =>
    by_cases hp : p a
    · simp [List.filter_cons, hp, List.filterMap_cons, ih]
    · have := h a (by simpa using hp)
      simp [List.filter_cons, hp, List.filterMap_cons, this, ih]

/-- The sextet stream recovered by the lenient decoder from the encoded
text is exactly the sextet stream the encoder produced, and reassembling
it gives back the original bytes. -/
theorem sextetsToBytes_filterMap_stdB64 (l : List Nat) (hl : ∀ b ∈ l, b < 256) :
    sextetsToBytes (List.filterMap
      (fun c => b64Back (if c = '+' then '-' else if c = '/' then '_' else c))
      (stdB64 l)) = l := by
  have h4 : b64Back (if ('=' : Char) = '+' then '-'
      else if ('=' : Char) = '/' then '_' else '=') = none := by decide
  induction l using stdB64.induct with
  | case1 => rfl
  | case2 a =>
    have ha : a < 256 := hl a (by simp)
    simp only [stdB64, List.filterMap_cons,
      b64Back_sextetChar (a / 4) (by omega), b64Back_sextetChar (a % 4 * 16) (by omega),
      h4, List.filterMap_nil, sextetsToBytes, List.cons.injEq, and_true]
    omega
  | case3 a b =>
    have ha : a < 256 := hl a (by simp)
    have hb : b < 256 := hl b (by simp)
    simp only [stdB64, List.filterMap_cons,
      b64Back_sextetChar (a / 4) (by omega),
      b64Back_sextetChar (a % 4 * 16 + b / 16) (by omega),
      b64Back_sextetChar (b % 16 * 4) (by omega),
      h4, List.filterMap_nil, sextetsToBytes, List.cons.injEq, and_true]
    omega
  | case4 a b c rest ih =>
    have ha : a < 256 := hl a (by simp)
    have hb : b < 256 := hl b (by simp)
    have hc : c < 256 := hl c (by simp)
    have ihr := ih (fun x hx => hl x (by simp [hx]))
    simp only [stdB64, List.filterMap_cons,
      b64Back_sextetChar (a / 4) (by omega),
      b64Back_sextetChar (a % 4 * 16 + b / 16) (by omega),
      b64Back_sextetChar (b % 16 * 4 + c / 64) (by omega),
      b64Back_sextetChar (c % 64) (by omega),
      sextetsToBytes, List.cons.injEq]
    exact ⟨by omega, by omega, by omega, ihr⟩

/-- Round-trip of the token text codec: the validator's lenient base64url
decoding inverts the issuer's base64url encoding on every byte list. -/
theorem fromBase64Url_toBase64Url (l : List Nat) (hl : ∀ b ∈ l, b < 256) :
    fromBase64Url (toBase64Url l) = l := by
  simp only [fromBase64Url]
  have hmapfm : ∀ (x : List Char),
      List.filterMap sextetOfChar
        (x.map (fun c => if c = '-' then '+' else if c = '_' then '/' else c)) =
      List.filterMap b64Back x := by
    intro x
    rw [List.filterMap_map]
    rfl
  rw [hmapfm, List.filterMap_append, filterMap_b64Back_replicate, List.append_nil]
  unfold toBase64Url
  have hside : ∀ a : Char, (fun c => c ≠ '=' : Char → Bool) a = false → b64Back a = none := by
    intro a ha
    have hae : a = '=' := not_not.mp (of_decide_eq_false ha)
    rw [hae]
    decide
  rw [filterMap_filter_of_none b64Back (fun c => c ≠ '=') _ hside]
  rw [List.filterMap_map]
  exact sextetsToBytes_filterMap_stdB64 l hl

/-! ## UTF-8 round-trip on ASCII strings -/

theorem utf8EncChar_ascii (n : Nat) (h : n < 128) : utf8EncChar n = [n] := by
  simp [utf8EncChar, h]

theorem utf8Encode_ascii (s : List Char) (h : ∀ c ∈ s, c.toNat < 128) :
    utf8Encode s = s.map Char.toNat := by
  induction s with
  | nil => rfl
  | cons c t ih =>
    have hc : c.toNat < 128 := h c (by simp)
    have iht := ih (fun x hx => h x (by simp [hx]))
    simp only [utf8Encode, List.flatMap_cons, utf8EncChar_ascii c.toNat hc, List.map_cons,
      List.singleton_append, List.cons.injEq, true_and]
    simpa [utf8Encode] using iht

theorem utf8DecF_ascii : ∀ (fuel : Nat) (l : List Nat), l.length ≤ fuel →
    (∀ b ∈ l, b < 128) → utf8DecF fuel l = l.map Char.ofNat := by
  intro fuel
  induction fuel with
  | zero =>
    intro l hl _
    match l, hl with
    | [], _ => rfl
  | succ fuel ih =>
    intro l hl hb
    match l with
    | [] => rfl
    | b :: rest =>
      have h1 : b < 128 := hb b (by simp)
      simp only [utf8DecF, if_pos h1, List.map_cons, List.cons.injEq, true_and]
      exact ih rest (by simpa using hl) (fun x hx => hb x (by simp [hx]))

theorem utf8Dec_utf8Encode_ascii (s : List Char) (h : ∀ c ∈ s, c.toNat < 128) :
    utf8Dec (utf8Encode s) = s := by
  rw [utf8Dec, utf8DecF_ascii _ _ le_rfl]
  · rw [utf8Encode_ascii s h, List.map_map]
    have hcomp : Char.ofNat ∘ Char.toNat = id := funext Char.ofNat_toNat
    rw [hcomp, List.map_id]
  · intro b hb
    rw [utf8Encode_ascii s h] at hb
    obtain ⟨c, hc, rfl⟩ := List.mem_map.mp hb
    exact h c hc

/-! ## Decimal printing and `parseInt` -/

theorem digitChar_facts : ∀ d : Nat, d < 10 →
    isDigitCh (Char.ofNat (48 + d)) = true ∧ (Char.ofNat (48 + d)).toNat = 48 + d ∧
    jsWs (Char.ofNat (48 + d)) = false ∧ Char.ofNat (48 + d) ≠ ':' ∧
    Char.ofNat (48 + d) ≠ '.' ∧ Char.ofNat (48 + d) ≠ '-' ∧
    Char.ofNat (48 + d) ≠ '+' ∧ (Char.ofNat (48 + d)).toNat < 128 := by
  decide

theorem decDigitsRev_mem : ∀ (fuel n : Nat), ∀ c ∈ decDigitsRev fuel n,
    ∃ d, d < 10 ∧ c = Char.ofNat (48 + d) := by
  intro fuel
  induction fuel with
  | zero => intro n c hc; simp [decDigitsRev] at hc
  | succ fuel ih =>
    intro n c hc
    by_cases hn : n = 0
    · simp [decDigitsRev, hn] at hc
    · simp only [decDigitsRev, if_neg hn, List.mem_cons] at hc
      rcases hc with rfl | hc
      · exact ⟨n % 10, by omega, rfl⟩
      · exact ih _ c hc

theorem natDecChars_mem (n : Nat) : ∀ c ∈ natDecChars n,
    ∃ d, d < 10 ∧ c = Char.ofNat (48 + d) := by
  intro c hc
  by_cases hn : n = 0
  · simp only [natDecChars, if_pos hn, List.mem_singleton] at hc
    exact ⟨0, by omega, by simpa using hc⟩
  · simp only [natDecChars, if_neg hn, List.mem_reverse] at hc
    exact decDigitsRev_mem n n c hc

theorem natDecChars_ne_nil (n : Nat) : natDecChars n ≠ [] := by
  by_cases hn : n = 0
  · simp [natDecChars, hn]
  · have : decDigitsRev n n ≠ [] := by
      match n, hn with
      | m + 1, _ => simp [decDigitsRev]
    simp [natDecChars, hn, this]

theorem digitsVal_append_one (xs : List Char) (c : Char) :
    digitsVal (xs ++ [c]) = digitsVal xs * 10 + (c.toNat - 48) := by
  simp [digitsVal, List.foldl_append]

theorem digitsVal_decDigitsRev : ∀ (fuel n : Nat), n ≤ fuel →
    digitsVal (decDigitsRev fuel n).reverse = n := by
  intro fuel
  induction fuel with
  | zero =>
    intro n hn
    have : n = 0 := by omega
    simp [this, decDigitsRev, digitsVal]
  | succ fuel ih =>
    intro n hn
    by_cases hn0 : n = 0
    · simp [hn0, decDigitsRev, digitsVal]
    · simp only [decDigitsRev, if_neg hn0, List.reverse_cons]
      rw [digitsVal_append_one, ih (n / 10) (by omega)]
      have := (digitChar_facts (n % 10) (by omega)).2.1
      omega

theorem digitsVal_natDecChars (n : Nat) : digitsVal (natDecChars n) = n := by
  by_cases hn : n = 0
  · simp [natDecChars, hn, digitsVal]
  · simp only [natDecChars, if_neg hn]
    exact digitsVal_decDigitsRev n n le_rfl

theorem takeWhile_all {α : Type} (p : α → Bool) (l : List α) (h : ∀ a ∈ l, p a) :
    l.takeWhile p = l := by
  induction l with
  | nil => rfl
  | cons a t ih => simp [List.takeWhile_cons, h a (by simp), ih (fun x hx => h x (by simp [hx]))]

theorem jsParseInt_digitChars (l : List Char) (hne : l ≠ [])
    (hd : ∀ c ∈ l, ∃ d, d < 10 ∧ c = Char.ofNat (48 + d)) :
    jsParseInt l = some (digitsVal l) := by
  match l, hne with
  | c :: rest, _ =>
    obtain ⟨d, hdlt, rfl⟩ := hd c (by simp)
    have hfc := digitChar_facts d hdlt
    have hdw : List.dropWhile jsWs (Char.ofNat (48 + d) :: rest) =
        Char.ofNat (48 + d) :: rest := by
      rw [List.dropWhile_cons, if_neg (by simp [hfc.2.2.1])]
    have htw : (Char.ofNat (48 + d) :: rest).takeWhile isDigitCh =
        Char.ofNat (48 + d) :: rest := by
      refine takeWhile_all _ _ (fun x hx => ?_)
      obtain ⟨e, helt, rfl⟩ := hd x hx
      exact (digitChar_facts e helt).1
    have hmatch : (match Char.ofNat (48 + d) :: rest with
        | '-' :: r => ((-1 : Int), r)
        | '+' :: r => ((1 : Int), r)
        | r => ((1 : Int), r)) = ((1 : Int), Char.ofNat (48 + d) :: rest) := by
      split
      · rename_i r heq
        injection heq with h1 _
        exact absurd h1 hfc.2.2.2.2.2.1
      · rename_i r heq
        injection heq with h1 _
        exact absurd h1 hfc.2.2.2.2.2.2.1
      · rfl
    simp only [jsParseInt, hdw, hmatch, htw]
    simp

theorem jsSplit_of_not_mem (sep : Char) (l : List Char) (h : sep ∉ l) :
    jsSplit sep l = [l] := by
  induction l with
  | nil => rfl
  | cons c t ih =>
    have hc : c ≠ sep := fun hcc => h (by simp [hcc])
    simp [jsSplit, hc, ih (fun ht => h (by simp [ht]))]

theorem jsSplit_two (sep : Char) (a b : List Char) (ha : sep ∉ a) (hb : sep ∉ b) :
    jsSplit sep (a ++ sep :: b) = [a, b] := by
  induction a with
  | nil => simp [jsSplit, jsSplit_of_not_mem sep b hb]
  | cons c t ih =>
    have hc : c ≠ sep := fun hcc => ha (by simp [hcc])
    have ht : sep ∉ t := fun h2 => ha (by simp [h2])
    show jsSplit sep (c :: (t ++ sep :: b)) = [c :: t, b]
    simp only [jsSplit, if_neg hc]
    rw [ih ht]
    rfl

/-! ## Characterizing validation of crafted tokens -/

theorem sepIdx_append (p s : List Nat) (hp : ∀ b ∈ p, b ≠ 46) :
    sepIdx (p ++ 46 :: s) = some p.length := by
  induction p with
  | nil => simp [sepIdx]
  | cons b t ih =>
    have hb : b ≠ 46 := hp b (by simp)
    simp only [List.cons_append, sepIdx, if_neg hb, List.append_eq,
      ih (fun x hx => hp x (by simp [hx])), List.length_cons]
    rfl

theorem utf8Encode_ascii_lt (p : List Char) (h : ∀ c ∈ p, c.toNat < 128) :
    ∀ b ∈ utf8Encode p, b < 128 := by
  intro b hb
  rw [utf8Encode_ascii p h] at hb
  obtain ⟨c, hc, rfl⟩ := List.mem_map.mp hb
  exact h c hc

theorem utf8Encode_ascii_ne46 (p : List Char) (h : ∀ c ∈ p, c.toNat < 128)
    (hdot : '.' ∉ p) : ∀ b ∈ utf8Encode p, b ≠ 46 := by
  intro b hb hb46
  rw [utf8Encode_ascii p h] at hb
  obtain ⟨c, hc, rfl⟩ := List.mem_map.mp hb
  have : c = '.' := by
    have h1 := (Char.ofNat_toNat c).symm
    rw [hb46] at h1
    simpa using h1
  exact hdot (this ▸ hc)

theorem isPrefixOf_append_self {α : Type} [DecidableEq α] (m r : List α) :
    m.isPrefixOf (m ++ r) = true :=
  List.isPrefixOf_iff_prefix.mpr (List.prefix_append m r)

/-- Core characterization: validating a crafted token whose payload is an
ASCII, `'.'`-free string, signed with the same secret, reaches the payload
interpretation phase on exactly that payload string. -/
theorem validate_mkTokenP (secret : String) (p : List Char) (cur : Int)
    (hA : ∀ c ∈ p, c.toNat < 128) (hdot : '.' ∉ p) :
    validateKeyAtTime secret (mkTokenP secret p) cur = parsePayloadStr p cur := by
  have hdata : ∀ b ∈ utf8Encode p ++ 46 :: hmacSha256 (utf8Encode secret.data) (utf8Encode p),
      b < 256 := by
    intro b hb
    rcases List.mem_append.mp hb with h | h
    · exact lt_trans (utf8Encode_ascii_lt p hA b h) (by norm_num)
    · rcases List.mem_cons.mp h with rfl | h2
      · norm_num
      · exact hmacSha256_lt _ _ b h2
  simp only [validateKeyAtTime, mkTokenP]
  rw [if_neg (by simp [licenseMarker])]
  rw [if_neg (by simp [isPrefixOf_append_self])]
  have hdrop : List.drop 6 (licenseMarker ++ toBase64Url
      (utf8Encode p ++ 46 :: hmacSha256 (utf8Encode secret.data) (utf8Encode p))) =
      toBase64Url (utf8Encode p ++ 46 :: hmacSha256 (utf8Encode secret.data) (utf8Encode p)) := by
    show List.drop licenseMarker.length _ = _
    exact List.drop_left _ _
  rw [hdrop, fromBase64Url_toBase64Url _ hdata]
  rw [sepIdx_append _ _ (utf8Encode_ascii_ne46 p hA hdot)]
  have htake : (utf8Encode p ++ 46 :: hmacSha256 (utf8Encode secret.data) (utf8Encode p)).take
      (utf8Encode p).length = utf8Encode p := List.take_left _ _
  have hdrop2 : (utf8Encode p ++ 46 :: hmacSha256 (utf8Encode secret.data) (utf8Encode p)).drop
      ((utf8Encode p).length + 1) = hmacSha256 (utf8Encode secret.data) (utf8Encode p) := by
    rw [← List.drop_drop, List.drop_left]
    rfl
  simp only [htake, hdrop2, if_true]
  rw [utf8Dec_utf8Encode_ascii p hA]

/-- Membership facts for the decimal payload `"<i>:<e>"` with `0 ≤ i`, `0 ≤ e`:
every character is ASCII and none is `'.'`. -/
theorem decPayload_ascii (i e : Int) (hi : 0 ≤ i) (he : 0 ≤ e) :
    (∀ c ∈ intDecChars i ++ ':' :: intDecChars e, c.toNat < 128) ∧
    ('.' ∉ intDecChars i ++ ':' :: intDecChars e) ∧
    (':' ∉ intDecChars i) ∧ (':' ∉ intDecChars e) := by
  have hmem : ∀ (j : Int), 0 ≤ j → ∀ c ∈ intDecChars j,
      ∃ d, d < 10 ∧ c = Char.ofNat (48 + d) := by
    intro j hj c hc
    simp only [intDecChars, if_neg (by omega : ¬ j < 0)] at hc
    exact natDecChars_mem _ c hc
  have hfact : ∀ (j : Int), 0 ≤ j → ∀ c ∈ intDecChars j,
      c.toNat < 128 ∧ c ≠ '.' ∧ c ≠ ':' := by
    intro j hj c hc
    obtain ⟨d, hdlt, rfl⟩ := hmem j hj c hc
    have h := digitChar_facts d hdlt
    exact ⟨h.2.2.2.2.2.2.2, h.2.2.2.2.1, h.2.2.2.1⟩
  refine ⟨?_, ?_, ?_, ?_⟩
  · intro c hc
    rcases List.mem_append.mp hc with h | h
    · exact (hfact i hi c h).1
    · rcases List.mem_cons.mp h with rfl | h2
      · decide
      · exact (hfact e he c h2).1
  · intro hc
    rcases List.mem_append.mp hc with h | h
    · exact (hfact i hi _ h).2.1 rfl
    · rcases List.mem_cons.mp h with h1 | h2
      · exact absurd h1 (by decide)
      · exact (hfact e he _ h2).2.1 rfl
  · intro hc
    exact (hfact i hi _ hc).2.2 rfl
  · intro hc
    exact (hfact e he _ hc).2.2 rfl

theorem jsParseInt_intDecChars (i : Int) (hi : 0 ≤ i) :
    jsParseInt (intDecChars i) = some i := by
  simp only [intDecChars, if_neg (by omega : ¬ i < 0)]
  rw [jsParseInt_digitChars _ (natDecChars_ne_nil _) (natDecChars_mem _)]
  rw [digitsVal_natDecChars]
  simp [Int.natAbs_of_nonneg hi]

/-- Arithmetic characterization of validating the structurally valid signed
token `mkToken secret i e` (payload `"<i>:<e>"`, `0 ≤ i`, `0 ≤ e`). -/
theorem validate_mkToken (secret : String) (i e cur : Int)
    (hi : 0 ≤ i) (he : 0 ≤ e) :
    validateKeyAtTime secret (mkToken secret i e) cur =
      if i ≤ 0 ∨ e ≤ 0 then .error .invalidData
      else if e ≤ i then .error .invalidData
      else if maxDateMs < (i * 1000).natAbs ∨ maxDateMs < (e * 1000).natAbs then
        .error .timeErr
      else if cur < e * 1000 then
        .ok ⟨true, i * 1000, e * 1000, max 0 (((e * 1000 - cur : Int) : ℚ) / 3600000)⟩
      else .error .expired := by
  obtain ⟨hA, hdot, hci, hce⟩ := decPayload_ascii i e hi he
  rw [mkToken, validate_mkTokenP secret _ cur hA hdot]
  simp only [parsePayloadStr, jsSplit_two ':' _ _ hci hce]
  simp only [List.length_cons, List.length_nil, List.length_singleton]
  rw [if_neg (by omega)]
  have hine : intDecChars i ≠ [] := by
    simp only [intDecChars, if_neg (by omega : ¬ i < 0)]
    exact natDecChars_ne_nil _
  have hene : intDecChars e ≠ [] := by
    simp only [intDecChars, if_neg (by omega : ¬ e < 0)]
    exact natDecChars_ne_nil _
  rw [if_neg (by simp [List.getD, hine, hene])]
  simp only [List.getD, List.get?_eq_getElem?, List.getElem?_cons_zero,
    List.getElem?_cons_succ, Option.getD_some]
  rw [jsParseInt_intDecChars i hi, jsParseInt_intDecChars e he]
  rw [if_neg (by simp)]
  simp only [Option.getD_some]
  split_ifs with h1 h2 h3 h4 <;> simp_all

/-! ## Control-flow inversion lemmas -/

/-- Success invariant of the payload-interpretation phase: every
`LicenseInfo` it returns has `isValid = true`, positive exact
`hoursRemaining = (expiresAt - current) / 3600000`, ordered timestamps and
an unexpired current time. -/
theorem parsePayloadStr_ok_inv (p : List Char) (cur : Int) (info : LicenseInfo)
    (h : parsePayloadStr p cur = .ok info) :
    info.isValid = true ∧
    info.hoursRemaining = ((info.expiresAtMs - cur : Int) : ℚ) / 3600000 ∧
    0 < info.hoursRemaining ∧
    info.issuedAtMs < info.expiresAtMs ∧ cur < info.expiresAtMs := by
  simp only [parsePayloadStr] at h
  split at h
  · exact absurd h (by simp)
  split at h
  · exact absurd h (by simp)
  split at h
  · exact absurd h (by simp)
  split at h
  · exact absurd h (by simp)
  split at h
  · exact absurd h (by simp)
  split at h
  · exact absurd h (by simp)
  split at h
  · exact absurd h (by simp)
  · rename_i hlen hemp hnone hpos hord hrange hexp
    rw [not_not] at hexp
    simp only [Except.ok.injEq] at h
    subst h
    have hgt : (0 : ℚ) <
        (((jsParseInt ((jsSplit ':' p).getD 1 [])).getD 0 * 1000 - cur : Int) : ℚ) := by
      have h0 : (0 : Int) < (jsParseInt ((jsSplit ':' p).getD 1 [])).getD 0 * 1000 - cur := by
        omega
      exact_mod_cast h0
    constructor
    · simpa using hexp
    constructor
    · simp only [if_pos hexp]
      rw [max_eq_right (le_of_lt (div_pos hgt (by norm_num)))]
    constructor
    · simp only [if_pos hexp]
      rw [max_eq_right (le_of_lt (div_pos hgt (by norm_num)))]
      exact div_pos hgt (by norm_num)
    constructor
    · simp only []
      omega
    · simpa using hexp

theorem parsePayloadStr_ne_base64 (p : List Char) (cur : Int) :
    parsePayloadStr p cur ≠ .error .base64Err := by
  simp only [parsePayloadStr]
  split
  · simp
  split
  · simp
  split
  · simp
  split
  · simp
  split
  · simp
  split
  · simp
  split
  · simp
  · simp

/-- Reaching the payload-interpretation phase (and therefore any success,
time-parse, data or expiry outcome) requires the provided signature to be
byte-for-byte the recomputed HMAC. -/
theorem validate_reaches_parse (secret key : String) (cur : Int)
    (h : ∀ e, validateKeyAtTime secret key cur = .error e →
         e = .timeErr ∨ e = .invalidData ∨ e = .expired ∨ e = .invalidFormat) :
    (validateKeyAtTime secret key cur = .error .invalidFormat ∧
      (key.data = [] ∨ licenseMarker.isPrefixOf key.data = false ∨
        sepIdx (fromBase64Url (key.data.drop 6)) = none)) ∨
    ∃ si, sepIdx (fromBase64Url (key.data.drop 6)) = some si ∧
      (fromBase64Url (key.data.drop 6)).drop (si + 1) =
        hmacSha256 (utf8Encode secret.data) ((fromBase64Url (key.data.drop 6)).take si) ∧
      validateKeyAtTime secret key cur =
        parsePayloadStr (utf8Dec ((fromBase64Url (key.data.drop 6)).take si)) cur := by
  by_cases h1 : key.data = []
  · left
    constructor
    · simp [validateKeyAtTime, h1]
    · exact Or.inl h1
  by_cases h2 : licenseMarker.isPrefixOf key.data
  swap
  · left
    constructor
    · simp only [validateKeyAtTime, if_neg h1]
      rw [if_pos h2]
    · rw [Bool.not_eq_true] at h2
      exact Or.inr (Or.inl h2)
  rcases hsep : sepIdx (fromBase64Url (key.data.drop 6)) with _ | si
  · left
    constructor
    · simp only [validateKeyAtTime, if_neg h1]
      rw [if_neg (not_not.mpr h2)]
      simp [hsep]
    · exact Or.inr (Or.inr rfl)
  · have hval : validateKeyAtTime secret key cur =
        (if ((fromBase64Url (key.data.drop 6)).drop (si + 1)).length =
            (hmacSha256 (utf8Encode secret.data)
              ((fromBase64Url (key.data.drop 6)).take si)).length then
          if (fromBase64Url (key.data.drop 6)).drop (si + 1) =
              hmacSha256 (utf8Encode secret.data)
                ((fromBase64Url (key.data.drop 6)).take si) then
            parsePayloadStr (utf8Dec ((fromBase64Url (key.data.drop 6)).take si)) cur
          else .error .invalidSignature
        else .error .rangeErr) := by
      simp only [validateKeyAtTime, if_neg h1]
      rw [if_neg (not_not.mpr h2)]
      rw [hsep]
    by_cases hlen : ((fromBase64Url (key.data.drop 6)).drop (si + 1)).length =
        (hmacSha256 (utf8Encode secret.data)
          ((fromBase64Url (key.data.drop 6)).take si)).length
    swap
    · exfalso
      rw [hval, if_neg hlen] at h
      rcases h .rangeErr rfl with h3 | h3 | h3 | h3 <;> exact absurd h3 (by simp)
    by_cases hsig : (fromBase64Url (key.data.drop 6)).drop (si + 1) =
        hmacSha256 (utf8Encode secret.data) ((fromBase64Url (key.data.drop 6)).take si)
    swap
    · exfalso
      rw [hval, if_pos hlen, if_neg hsig] at h
      rcases h .invalidSignature rfl with h3 | h3 | h3 | h3 <;> exact absurd h3 (by simp)
    right
    refine ⟨si, rfl, hsig, ?_⟩
    rw [hval, if_pos hlen, if_pos hsig]

/-! ## Construction guards, generator equations, floor arithmetic -/

theorem dropWhile_all_nil {α : Type} (p : α → Bool) (l : List α)
    (h : ∀ a ∈ l, p a) : l.dropWhile p = [] := by
  induction l with
  | nil => rfl
  | cons a t ih => simp [List.dropWhile_cons, h a (by simp), ih (fun x hx => h x (by simp [hx]))]

theorem secretRejected_of_ws (s : String) (h : ∀ c ∈ s.data, jsWs c) :
    secretRejected s = true := by
  have hd : List.dropWhile jsWs s.data = [] := dropWhile_all_nil jsWs s.data h
  simp [secretRejected, jsTrim, hd]

/-- The issuer on a valid issuance date whose raw expiry millisecond value
is non-negative and representable: it produces exactly the structurally
valid signed token for the floored second values. -/
theorem generate_some (secret : String) (hours : ℚ) (t : Int)
    (h0 : 0 < hours) (hx0 : (0 : ℚ) ≤ (t : ℚ) + hours * 3600000)
    (hxm : (t : ℚ) + hours * 3600000 ≤ (maxDateMs : ℚ)) :
    generateKeyWithTimestamp secret hours (some t) =
      .ok (mkToken secret (t / 1000) (⌊(t : ℚ) + hours * 3600000⌋ / 1000)) := by
  have hfl0 : 0 ≤ ⌊(t : ℚ) + hours * 3600000⌋ := Int.le_floor.mpr (by exact_mod_cast hx0)
  have hflm : ⌊(t : ℚ) + hours * 3600000⌋ ≤ maxDateMs := by
    have := Int.floor_le ((t : ℚ) + hours * 3600000)
    have h2 : ((⌊(t : ℚ) + hours * 3600000⌋ : Int) : ℚ) ≤ (maxDateMs : ℚ) := le_trans this hxm
    exact_mod_cast h2
  have htr : truncQ ((t : ℚ) + hours * 3600000) = ⌊(t : ℚ) + hours * 3600000⌋ := by
    simp only [truncQ, if_neg (not_lt.mpr hx0)]
  have hdate : jsDateOf ((t : ℚ) + hours * 3600000) =
      some ⌊(t : ℚ) + hours * 3600000⌋ := by
    simp only [jsDateOf, htr]
    rw [if_pos (by simp only [maxDateMs] at hflm ⊢; omega)]
  simp only [generateKeyWithTimestamp, if_neg (not_le.mpr h0), hdate, mkToken, mkTokenP,
    floorDiv1000]

/-- Floor of a rational divided by 1000 equals integer floor-division of
its floor: the two-stage flooring in the code collapses. -/
theorem floorQ_div_1000 (x : ℚ) : ⌊x / 1000⌋ = ⌊x⌋ / 1000 := by
  have hle : ⌊x⌋ / 1000 ≤ ⌊x / 1000⌋ := by
    rw [Int.le_floor]
    have h1 : (1000 : Int) * (⌊x⌋ / 1000) ≤ ⌊x⌋ := by omega
    have h2 : ((1000 * (⌊x⌋ / 1000) : Int) : ℚ) ≤ (⌊x⌋ : ℚ) := by exact_mod_cast h1
    have h3 : (⌊x⌋ : ℚ) ≤ x := Int.floor_le x
    have h4 : ((⌊x⌋ / 1000 : Int) : ℚ) * 1000 ≤ x := by push_cast at h2 ⊢; linarith
    linarith [h4, (by norm_num : (0:ℚ) < 1000)]
  have hge : ⌊x / 1000⌋ ≤ ⌊x⌋ / 1000 := by
    have h2 : ((⌊x / 1000⌋ : Int) : ℚ) ≤ x / 1000 := Int.floor_le _
    have h3 : (1000 * ⌊x / 1000⌋ : Int) ≤ ⌊x⌋ := by
      rw [Int.le_floor]
      push_cast
      nlinarith [h2]
    omega
  omega

theorem truncQ_intCast (n : Int) : truncQ (n : ℚ) = n := by
  by_cases hn : (n : ℚ) < 0
  · simp only [truncQ, if_pos hn]
    rw [← Int.cast_neg, Int.floor_intCast]
    omega
  · simp only [truncQ, if_neg hn, Int.floor_intCast]

/-! ## Claim theorems -/

/-- C3 (code bug): a token that passes the marker, decode and separator
gates but whose signature region is empty (payload `"1:2"`, nothing after
the `'.'`) makes `crypto.timingSafeEqual` throw an untyped `RangeError`
instead of the `INVALID_SIGNATURE` `LicenseError` the spec requires for a
signature of the wrong length.  `"alvan-MToyLg"` is exactly
`"alvan-" ++ base64url_nopad("1:2.")`. -/
theorem c3_length_mismatch_throws_rangeError :
    validateKeyAtTime "k" "alvan-MToyLg" 0 = .error .rangeErr := by decide

/-- C4 counterexample: `"alvan-$$$$"` starts with the marker and its
remainder is not valid base64url text, yet validation fails with
`INVALID_FORMAT` (missing separator after the lenient decode produced no
bytes), not with the claimed `BASE64_ERROR`. -/
theorem c4_cex :
    validateKeyAtTime "k" "alvan-$$$$" 0 = .error .invalidFormat ∧
    validateKeyAtTime "k" "alvan-$$$$" 0 ≠ .error .base64Err := by
  constructor
  · decide
  · decide

/-- C4 amended: the base64 decode layer never reports a failure at all:
Node's `Buffer.from(str, 'base64')` ignores characters outside the base64
alphabet and never throws, so `validateKeyAtTime` never returns the
`BASE64_ERROR` kind for any secret, token and time; malformed base64url
input falls through to later gates. -/
theorem c4_amended_no_base64_error (secret key : String) (cur : Int) :
    validateKeyAtTime secret key cur ≠ .error .base64Err := by
  intro h
  simp only [validateKeyAtTime] at h
  split at h
  · exact absurd h (by simp)
  split at h
  · exact absurd h (by simp)
  split at h
  · exact absurd h (by simp)
  · split at h
    · split at h
      · exact parsePayloadStr_ne_base64 _ _ h
      · exact absurd h (by simp)
    · exact absurd h (by simp)

/-- C5 (code bug): flipping the last character of a concrete valid token
(secret `"test"`, 1 hour, issued at 1700000000000 ms) to `'!'` makes
validation throw the untyped `RangeError` from `crypto.timingSafeEqual`
(the lenient decode drops the invalid character, so the signature region
decodes to 31 bytes instead of 32) — an outcome outside the claim's
allowed set `{InvalidFormat, DecodeError, InvalidSignature}`. -/
theorem c5_tamper_throws_rangeError :
    (∃ info, validateKeyAtTime "test" c5ValidToken 1700000000000 = .ok info) ∧
    c5Tampered ≠ c5ValidToken ∧
    validateKeyAtTime "test" c5Tampered 1700000000000 = .error .rangeErr := by
  have hfl : ⌊((1700000000000 : Int) : ℚ) + 1 * 3600000⌋ = (1700003600000 : Int) := by
    norm_num
  have hgen : generateKeyWithTimestamp "test" 1 (some 1700000000000) =
      .ok (mkToken "test" 1700000000 1700003600) := by
    rw [generate_some "test" 1 1700000000000 (by norm_num) (by norm_num)
      (by simp only [maxDateMs]; norm_num), hfl]
    norm_num
  have htok : c5ValidToken = mkToken "test" 1700000000 1700003600 := by
    rw [c5ValidToken, hgen]
  have htam : c5Tampered =
      String.mk ((mkToken "test" 1700000000 1700003600).data.dropLast ++ ['!']) := by
    rw [c5Tampered, htok]
  refine ⟨?_, ?_, ?_⟩
  · rw [htok, validate_mkToken "test" 1700000000 1700003600 1700000000000
      (by norm_num) (by norm_num)]
    rw [if_neg (by norm_num), if_neg (by norm_num), if_neg (by decide),
      if_pos (by norm_num)]
    exact ⟨_, rfl⟩
  · rw [htam, htok]
    decide
  · rw [htam]
    decide

/-- C6 counterexample: the token `"alvan-MToyLg"` (payload `"1:2"`,
empty signature region) carries a bad signature — the bytes after the
first `'.'` are not the HMAC of the payload — yet validation exits with
the untyped `RangeError` thrown by `crypto.timingSafeEqual`, which is
none of the three kinds (`InvalidFormat`, `DecodeError`,
`InvalidSignature`) the claim says a bad-signature token is limited to. -/
theorem c6_cex :
    validateKeyAtTime "k" "alvan-MToyLg" 5 = .error .rangeErr ∧
    sepIdx (fromBase64Url (("alvan-MToyLg" : String).data.drop 6)) = some 3 ∧
    (fromBase64Url (("alvan-MToyLg" : String).data.drop 6)).drop 4 ≠
      hmacSha256 (utf8Encode ("k" : String).data)
        ((fromBase64Url (("alvan-MToyLg" : String).data.drop 6)).take 3) ∧
    VErr.rangeErr ≠ VErr.invalidFormat ∧
    VErr.rangeErr ≠ VErr.base64Err ∧
    VErr.rangeErr ≠ VErr.invalidSignature := by
  refine ⟨by decide, by decide, by decide, by decide, by decide, by decide⟩

/-- C6 amended: the gate-ordering half of the claim — whenever validation
fails with a time-parse, invalid-data or expiry error (all of which arise
only in the payload interpretation phase), the bytes after the first
`'.'` of the decoded data equal HMAC-SHA256 of the secret over the bytes
before it: signature verification happened, and succeeded, before any
payload semantics.  (The claim's final clause is false: a bad signature
of the wrong byte length escapes as an untyped `RangeError` — see
`c6_cex` — so a bad-signature token is not limited to format, decode and
signature errors.) -/
theorem c6_signature_checked_first (secret key : String) (cur : Int)
    (h : validateKeyAtTime secret key cur = .error .timeErr ∨
         validateKeyAtTime secret key cur = .error .invalidData ∨
         validateKeyAtTime secret key cur = .error .expired) :
    ∃ si, sepIdx (fromBase64Url (key.data.drop 6)) = some si ∧
      (fromBase64Url (key.data.drop 6)).drop (si + 1) =
        hmacSha256 (utf8Encode secret.data) ((fromBase64Url (key.data.drop 6)).take si) := by
  have hr := validate_reaches_parse secret key cur ?side
  case side =>
    intro e he
    rcases h with h | h | h <;> rw [he] at h <;>
      simp only [Except.error.injEq] at h <;> subst h
    · exact Or.inl rfl
    · exact Or.inr (Or.inl rfl)
    · exact Or.inr (Or.inr (Or.inl rfl))
  rcases hr with ⟨hfmt, _⟩ | ⟨si, hsep, hsig, _⟩
  · rcases h with h | h | h <;> rw [hfmt] at h <;> simp at h
  · exact ⟨si, hsep, hsig⟩

/-- Witness for C6: a concrete expiry failure (payload `"1:2"`, signed
with `"k"`, checked long after expiry) satisfies the hypothesis, and the
theorem yields the matching-signature conclusion. -/
theorem c6_witness :
    ∃ si, sepIdx (fromBase64Url ((mkTokenP "k" ['1', ':', '2']).data.drop 6)) = some si ∧
      (fromBase64Url ((mkTokenP "k" ['1', ':', '2']).data.drop 6)).drop (si + 1) =
        hmacSha256 (utf8Encode ("k" : String).data)
          ((fromBase64Url ((mkTokenP "k" ['1', ':', '2']).data.drop 6)).take si) :=
  c6_signature_checked_first "k" (mkTokenP "k" ['1', ':', '2']) 10000000
    (Or.inr (Or.inr (by decide)))

/-- C8: construction and format guards — an all-whitespace (or empty)
secret is rejected by the shared constructor guard of `LicenseGenerator`
and `LicenseValidator`; `generateKeyWithTimestamp` fails for `hours ≤ 0`
uniformly in the secret and timestamp (before any cryptographic work);
and the empty string and every string not starting with `"alvan-"` are
rejected with `INVALID_FORMAT`. -/
theorem c8_construction_guards :
    (∀ s : String, (∀ c ∈ s.data, jsWs c = true) → secretRejected s = true) ∧
    (∀ (secret : String) (hours : ℚ) (issuedAt : Option Int), hours ≤ 0 →
      generateKeyWithTimestamp secret hours issuedAt = .error .hoursNotPositive) ∧
    (∀ (secret : String) (cur : Int),
      validateKeyAtTime secret "" cur = .error .invalidFormat) ∧
    (∀ (secret key : String) (cur : Int), licenseMarker.isPrefixOf key.data = false →
      validateKeyAtTime secret key cur = .error .invalidFormat) := by
  refine ⟨secretRejected_of_ws, ?_, ?_, ?_⟩
  · intro secret hours issuedAt hh
    simp [generateKeyWithTimestamp, hh]
  · intro secret cur
    rfl
  · intro secret key cur hpf
    simp only [validateKeyAtTime]
    split
    · rfl
    · rw [if_pos (by simp [hpf])]

/-- Witness for C8: the whitespace secret `"  "`, `hours = 0`, the empty
token and `"not-alvan-prefixed"` realize every hypothesis. -/
theorem c8_witness :
    secretRejected "  " = true ∧
    generateKeyWithTimestamp "k" 0 (some 1000) = .error .hoursNotPositive ∧
    validateKeyAtTime "k" "" 5 = .error .invalidFormat ∧
    validateKeyAtTime "k" "not-alvan-prefixed" 5 = .error .invalidFormat :=
  ⟨c8_construction_guards.1 "  " (by decide),
   c8_construction_guards.2.1 "k" 0 (some 1000) (by norm_num),
   c8_construction_guards.2.2.1 "k" 5,
   c8_construction_guards.2.2.2 "k" "not-alvan-prefixed" 5 (by decide)⟩

/-- C10: invariant of every successfully returned `LicenseInfo` (from
`validateKeyAtTime`, and hence from `validateKey`, which delegates to it
at the live clock reading): `isValid` is `true`, `hoursRemaining` is
exactly `(expiresAt - currentTime) / 3600000` milliseconds-to-hours and
strictly positive, and `issuedAt < expiresAt` with the current time
strictly before `expiresAt`. -/
theorem c10_success_invariant (secret key : String) (cur : Int) (info : LicenseInfo)
    (h : validateKeyAtTime secret key cur = .ok info) :
    info.isValid = true ∧
    info.hoursRemaining = ((info.expiresAtMs - cur : Int) : ℚ) / 3600000 ∧
    0 < info.hoursRemaining ∧
    info.issuedAtMs < info.expiresAtMs ∧ cur < info.expiresAtMs := by
  have hr := validate_reaches_parse secret key cur ?side
  case side =>
    intro e he
    rw [he] at h
    exact absurd h (by simp)
  rcases hr with ⟨hfmt, _⟩ | ⟨si, hsep, hsig, heq⟩
  · rw [hfmt] at h
    exact absurd h (by simp)
  · rw [heq] at h
    exact parsePayloadStr_ok_inv _ cur info h

/-- Witness for C10: the successful validation of the signed token with
payload `"1:2"` at time 500 ms instantiates the invariant. -/
theorem c10_witness :
    ∃ info, validateKeyAtTime "k" (mkTokenP "k" ['1', ':', '2']) 500 = .ok info ∧
      info.isValid = true ∧ 0 < info.hoursRemaining ∧ 500 < info.expiresAtMs := by
  have hok : validateKeyAtTime "k" (mkTokenP "k" ['1', ':', '2']) 500 =
      .ok ⟨true, 1 * 1000, 2 * 1000,
        max 0 (((2 * 1000 - 500 : Int) : ℚ) / 3600000)⟩ := by
    rw [validate_mkTokenP "k" ['1', ':', '2'] 500 (by decide) (by decide)]
    rfl
  have h := c10_success_invariant "k" (mkTokenP "k" ['1', ':', '2']) 500 _ hok
  exact ⟨_, hok, h.1, h.2.2.1, h.2.2.2.2⟩

/-- C1 counterexample: at secret `"k"`, duration `1/7200` hour (half a
second, a valid `hours > 0`) and issuance time 5000 ms (a valid
timestamp), the generated token floors both instants to second 5, and
validation at the very issuance time fails with `INVALID_DATA`
(`expires_at <= issued_at`) instead of succeeding as the round-trip
claim states. -/
theorem c1_cex :
    generateKeyWithTimestamp "k" (1 / 7200 : ℚ) (some 5000) = .ok (mkToken "k" 5 5) ∧
    validateKeyAtTime "k" (mkToken "k" 5 5) 5000 = .error .invalidData := by
  constructor
  · have hfl : ⌊((5000 : Int) : ℚ) + 1 / 7200 * 3600000⌋ = (5500 : Int) := by
      norm_num
    rw [generate_some "k" (1 / 7200) 5000 (by norm_num) (by norm_num)
      (by simp only [maxDateMs]; norm_num), hfl]
    norm_num
  · rw [validate_mkToken "k" 5 5 5000 (by norm_num) (by norm_num)]
    norm_num

/-- C1 amended: the round-trip holds once the issuance instant is at
least one second after the epoch (so the floored issued second is
positive), the duration is at least one second (so flooring cannot
collapse `expires_at` onto `issued_at`), and the raw expiry millisecond
value is representable as a `Date`; then validation at the issuance time
succeeds with `isValid = true` and `hoursRemaining` within `1/3600` of
`hours` (the second-truncation rounding), never exceeding `hours`. -/
theorem c1_roundtrip_amended (secret : String) (hours : ℚ) (t : Int)
    (ht : 1000 ≤ t) (hh : 1 / 3600 ≤ hours)
    (hxm : (t : ℚ) + hours * 3600000 ≤ (maxDateMs : ℚ)) :
    ∃ tok info, generateKeyWithTimestamp secret hours (some t) = .ok tok ∧
      validateKeyAtTime secret tok t = .ok info ∧
      info.isValid = true ∧
      hours - 1 / 3600 < info.hoursRemaining ∧ info.hoursRemaining ≤ hours := by
  have htq : (1000 : ℚ) ≤ (t : ℚ) := by exact_mod_cast ht
  have h1000 : (1000 : ℚ) ≤ hours * 3600000 := by linarith
  have hx0 : (0 : ℚ) ≤ (t : ℚ) + hours * 3600000 := by linarith
  have hgen := generate_some secret hours t (by linarith) hx0 hxm
  set x : ℚ := (t : ℚ) + hours * 3600000 with hxdef
  set i0 : Int := t / 1000 with hi0def
  set e0 : Int := ⌊x⌋ / 1000 with he0def
  have hfx1 : ((⌊x⌋ : Int) : ℚ) ≤ x := Int.floor_le x
  have hfx2 : x < ((⌊x⌋ : Int) : ℚ) + 1 := Int.lt_floor_add_one x
  have hfl : t + 1000 ≤ ⌊x⌋ := Int.le_floor.mpr (by push_cast; linarith)
  have hfm : ⌊x⌋ ≤ maxDateMs := by
    have h2 : ((⌊x⌋ : Int) : ℚ) ≤ (maxDateMs : ℚ) := le_trans hfx1 hxm
    exact_mod_cast h2
  have hi0 : 1 ≤ i0 := by omega
  have hi0le : i0 * 1000 ≤ t := by omega
  have he0a : e0 * 1000 ≤ ⌊x⌋ := by omega
  have he0b : ⌊x⌋ ≤ e0 * 1000 + 999 := by omega
  have he0gt : t < e0 * 1000 := by omega
  have hio_lt : i0 < e0 := by omega
  have hval : validateKeyAtTime secret (mkToken secret i0 e0) t =
      .ok ⟨true, i0 * 1000, e0 * 1000,
        max 0 (((e0 * 1000 - t : Int) : ℚ) / 3600000)⟩ := by
    rw [validate_mkToken secret i0 e0 t (by omega) (by omega)]
    rw [if_neg (by omega), if_neg (by omega),
      if_neg (by simp only [maxDateMs] at hfm ⊢; omega), if_pos he0gt]
  have hposn : (0 : Int) < e0 * 1000 - t := by omega
  have hposq : (0 : ℚ) < ((e0 * 1000 - t : Int) : ℚ) := by exact_mod_cast hposn
  have hdivpos : (0 : ℚ) < ((e0 * 1000 - t : Int) : ℚ) / 3600000 :=
    div_pos hposq (by norm_num)
  have hmaxeq : max 0 (((e0 * 1000 - t : Int) : ℚ) / 3600000) =
      ((e0 * 1000 - t : Int) : ℚ) / 3600000 := max_eq_right (le_of_lt hdivpos)
  have he0aq : ((e0 * 1000 : Int) : ℚ) ≤ x := by
    have := he0a
    have h2 : ((e0 * 1000 : Int) : ℚ) ≤ ((⌊x⌋ : Int) : ℚ) := by exact_mod_cast this
    linarith
  have he0bq : ((⌊x⌋ : Int) : ℚ) ≤ ((e0 * 1000 : Int) : ℚ) + 999 := by
    exact_mod_cast he0b
  refine ⟨mkToken secret i0 e0, _, hgen, hval, rfl, ?_, ?_⟩
  · show hours - 1 / 3600 <
      (⟨true, i0 * 1000, e0 * 1000,
        max 0 (((e0 * 1000 - t : Int) : ℚ) / 3600000)⟩ : LicenseInfo).hoursRemaining
    show hours - 1 / 3600 < max 0 (((e0 * 1000 - t : Int) : ℚ) / 3600000)
    rw [hmaxeq, lt_div_iff₀ (by norm_num : (0 : ℚ) < 3600000)]
    push_cast
    push_cast at he0bq
    linarith
  · show (⟨true, i0 * 1000, e0 * 1000,
        max 0 (((e0 * 1000 - t : Int) : ℚ) / 3600000)⟩ : LicenseInfo).hoursRemaining ≤ hours
    show max 0 (((e0 * 1000 - t : Int) : ℚ) / 3600000) ≤ hours
    rw [hmaxeq, div_le_iff₀ (by norm_num : (0 : ℚ) < 3600000)]
    push_cast
    push_cast at he0aq
    linarith

/-- Witness for C1 (amended): secret `"k"`, one hour, issued one second
after the epoch. -/
theorem c1_witness :
    ∃ tok info, generateKeyWithTimestamp "k" 1 (some 1000) = .ok tok ∧
      validateKeyAtTime "k" tok 1000 = .ok info ∧
      info.isValid = true ∧
      (1 : ℚ) - 1 / 3600 < info.hoursRemaining ∧ info.hoursRemaining ≤ 1 :=
  c1_roundtrip_amended "k" 1 1000 (by norm_num) (by norm_num)
    (by simp only [maxDateMs]; norm_num)

/-- C2: expiry boundary.  For every structurally valid, correctly signed
token (payload `"<i>:<e>"` with `1 ≤ i < e` and representable expiry),
validation fails with `EXPIRED` exactly when `current_time ≥ expires_at`
(in milliseconds, `e * 1000 ≤ cur`), and a successful result always has
`isValid = true`.  Moreover for a token issued at any valid `T` with
`hours = 1`, validation at `T + 3599` s succeeds and validation at
`T + 3600` s fails with `EXPIRED`. -/
theorem c2_expiry_boundary (secret : String) (i e cur T : Int)
    (hi : 1 ≤ i) (hie : i < e) (he : e * 1000 ≤ maxDateMs)
    (hT : 1000 ≤ T) (hTm : T + 3600000 ≤ maxDateMs) :
    (validateKeyAtTime secret (mkToken secret i e) cur = .error .expired ↔
      e * 1000 ≤ cur) ∧
    (∀ info, validateKeyAtTime secret (mkToken secret i e) cur = .ok info →
      info.isValid = true) ∧
    (∃ tok, generateKeyWithTimestamp secret 1 (some T) = .ok tok ∧
      (∃ info, validateKeyAtTime secret tok (T + 3599000) = .ok info) ∧
      validateKeyAtTime secret tok (T + 3600000) = .error .expired) := by
  have hchar := validate_mkToken secret i e cur (by omega) (by omega)
  have hrw : validateKeyAtTime secret (mkToken secret i e) cur =
      if cur < e * 1000 then
        .ok ⟨true, i * 1000, e * 1000, max 0 (((e * 1000 - cur : Int) : ℚ) / 3600000)⟩
      else .error .expired := by
    rw [hchar, if_neg (by omega), if_neg (by omega),
      if_neg (by simp only [maxDateMs] at he ⊢; omega)]
  refine ⟨?_, ?_, ?_⟩
  · rw [hrw]
    by_cases hcur : cur < e * 1000
    · rw [if_pos hcur]
      constructor
      · intro hcon
        exact absurd hcon (by simp)
      · omega
    · rw [if_neg hcur]
      constructor
      · intro _
        omega
      · intro _
        rfl
  · intro info hinfo
    rw [hrw] at hinfo
    by_cases hcur : cur < e * 1000
    · rw [if_pos hcur] at hinfo
      simp only [Except.ok.injEq] at hinfo
      rw [← hinfo]
    · rw [if_neg hcur] at hinfo
      exact absurd hinfo (by simp)
  · have hflT : ⌊(T : ℚ) + 1 * 3600000⌋ = T + 3600000 := by
      rw [show (T : ℚ) + 1 * 3600000 = ((T + 3600000 : Int) : ℚ) by push_cast; ring]
      exact Int.floor_intCast _
    have hgen := generate_some secret 1 T (by norm_num)
      (by linarith [(by exact_mod_cast hT : (1000 : ℚ) ≤ (T : ℚ))])
      (by
        have h2 : ((T + 3600000 : Int) : ℚ) ≤ (maxDateMs : ℚ) := by exact_mod_cast hTm
        push_cast at h2 ⊢
        linarith)
    rw [hflT] at hgen
    set i0 : Int := T / 1000 with hi0def
    set e0 : Int := (T + 3600000) / 1000 with he0def
    have hi0 : 1 ≤ i0 := by omega
    have he0 : e0 = i0 + 3600 := by omega
    have hi0le : i0 * 1000 ≤ T := by omega
    have hi0ge : T ≤ i0 * 1000 + 999 := by omega
    refine ⟨mkToken secret i0 e0, hgen, ?_, ?_⟩
    · have hch2 := validate_mkToken secret i0 e0 (T + 3599000) (by omega) (by omega)
      rw [hch2, if_neg (by omega), if_neg (by omega),
        if_neg (by simp only [maxDateMs] at hTm ⊢; omega), if_pos (by omega)]
      exact ⟨_, rfl⟩
    · have hch3 := validate_mkToken secret i0 e0 (T + 3600000) (by omega) (by omega)
      rw [hch3, if_neg (by omega), if_neg (by omega),
        if_neg (by simp only [maxDateMs] at hTm ⊢; omega), if_neg (by omega)]

/-- Witness for C2: secret `"k"`, token `"1:2"`, checked at the epoch,
and a one-hour token issued at 1700000000000 ms. -/
theorem c2_witness :
    (validateKeyAtTime "k" (mkToken "k" 1 2) 0 = .error .expired ↔
      (2 : Int) * 1000 ≤ 0) ∧
    (∀ info, validateKeyAtTime "k" (mkToken "k" 1 2) 0 = .ok info →
      info.isValid = true) ∧
    (∃ tok, generateKeyWithTimestamp "k" 1 (some 1700000000000) = .ok tok ∧
      (∃ info, validateKeyAtTime "k" tok (1700000000000 + 3599000) = .ok info) ∧
      validateKeyAtTime "k" tok (1700000000000 + 3600000) = .error .expired) :=
  c2_expiry_boundary "k" 1 2 0 1700000000000 (by norm_num) (by norm_num)
    (by simp only [maxDateMs]; norm_num) (by norm_num)
    (by simp only [maxDateMs]; norm_num)

/-- When the raw expiry millisecond value is not a representable `Date`
(magnitude above 8.64e15), `expiresAt.getTime()` is `NaN`,
`Math.floor(NaN / 1000)` is `NaN`, and the template literal interpolates
the string `"NaN"`: the issuer happily signs a payload ending in
`":NaN"`. -/
theorem generate_nan (secret : String) (hours : ℚ) (t : Int)
    (h0 : 0 < hours) (hnan : jsDateOf ((t : ℚ) + hours * 3600000) = none) :
    generateKeyWithTimestamp secret hours (some t) =
      .ok (mkTokenP secret (intDecChars (t / 1000) ++ ':' :: ['N', 'a', 'N'])) := by
  simp only [generateKeyWithTimestamp, if_neg (not_le.mpr h0), hnan, mkTokenP, floorDiv1000]

/-- C7 counterexample: secret `"k"`, `hours = 3e12`, issued at
1700000000000 ms.  The raw expiry value exceeds the `Date` range, so the
generator emits payload `"1700000000:NaN"` — not the token that the
claimed formula (with
`expires_seconds = floor((t + hours*3600) in seconds)`) prescribes. -/
theorem c7_cex :
    ∃ tok, generateKeyWithTimestamp "k" 3000000000000 (some 1700000000000) = .ok tok ∧
      tok ≠ specTokenC7 "k" 3000000000000 1700000000000 := by
  have hval : ((1700000000000 : Int) : ℚ) + 3000000000000 * 3600000 =
      ((10800001700000000000 : Int) : ℚ) := by norm_num
  have hnan : jsDateOf (((1700000000000 : Int) : ℚ) + 3000000000000 * 3600000) = none := by
    rw [hval]
    simp only [jsDateOf, truncQ_intCast]
    rw [if_neg (by decide)]
  have hgen := generate_nan "k" 3000000000000 1700000000000 (by norm_num) hnan
  have hspec : specTokenC7 "k" 3000000000000 1700000000000 =
      mkTokenP "k" (intDecChars 1700000000 ++ ':' :: intDecChars 10800001700000000) := by
    have h1 : ⌊((1700000000000 : Int) : ℚ) / 1000⌋ = (1700000000 : Int) := by norm_num
    have h2 : ⌊((1700000000000 : Int) : ℚ) + 3000000000000 * 3600000⌋ =
        (10800001700000000000 : Int) := by
      rw [hval]
      exact Int.floor_intCast _
    simp only [specTokenC7, floorQ_div_1000, h1, h2]
    norm_num
  refine ⟨_, hgen, ?_⟩
  rw [hspec]
  decide

/-- C7 amended: whenever the expiry instant is representable and not
before the epoch (`0 ≤ t + hours*3600000 ≤ 8.64e15`), the generated
token is exactly the spec's formula
`"alvan-" ++ base64url_nopad(ASCII("<floor(t_s)>:<floor(t_s + hours*3600)>")
|| 0x2E || hmac_sha256(secret, payload))`.  (On overflow the literal
`"NaN"` is emitted instead, and for negative fractional expiry instants
the `Date` constructor truncates toward zero before the flooring.) -/
theorem c7_amended (secret : String) (hours : ℚ) (t : Int)
    (h0 : 0 < hours) (hx0 : (0 : ℚ) ≤ (t : ℚ) + hours * 3600000)
    (hxm : (t : ℚ) + hours * 3600000 ≤ (maxDateMs : ℚ)) :
    generateKeyWithTimestamp secret hours (some t) = .ok (specTokenC7 secret hours t) := by
  rw [generate_some secret hours t h0 hx0 hxm]
  simp only [specTokenC7, mkToken, floorQ_div_1000, Int.floor_intCast]

/-- Witness for C7 (amended): secret `"k"`, one hour, issued at
1700000000000 ms. -/
theorem c7_witness :
    generateKeyWithTimestamp "k" 1 (some 1700000000000) =
      .ok (specTokenC7 "k" 1 1700000000000) :=
  c7_amended "k" 1 1700000000000 (by norm_num) (by norm_num)
    (by simp only [maxDateMs]; norm_num)

/-- C9 counterexample: a correctly signed token whose payload is
`"1:2x"` — the expiry segment has trailing garbage after the digit —
validates successfully at 500 ms (`parseInt` ignores the garbage and
reads 2), instead of failing with `TimeParseError` as the claim states. -/
theorem c9_cex :
    ∃ info, validateKeyAtTime "k" (mkTokenP "k" ['1', ':', '2', 'x']) 500 = .ok info := by
  rw [validate_mkTokenP "k" ['1', ':', '2', 'x'] 500 (by decide) (by decide)]
  exact ⟨_, rfl⟩

/-- C9 amended: for a correctly signed token over an ASCII, `'.'`-free
payload `p`: a split on `':'` with part count other than 2 fails with
the format error (and that is the only way this token can produce a
format error); and when the part count is 2, failure of `parseInt` on
either part (`NaN`: no leading integer, e.g. an empty or non-numeric
segment) yields `TimeParseError` — but segments with trailing garbage
after a leading integer are accepted, the garbage silently ignored. -/
theorem c9_amended (secret : String) (p : List Char) (cur : Int)
    (hA : ∀ c ∈ p, c.toNat < 128) (hdot : '.' ∉ p) :
    (validateKeyAtTime secret (mkTokenP secret p) cur = .error .invalidFormat ↔
      (jsSplit ':' p).length ≠ 2) ∧
    ((jsSplit ':' p).length = 2 →
      (jsParseInt ((jsSplit ':' p).getD 0 []) = none ∨
       jsParseInt ((jsSplit ':' p).getD 1 []) = none) →
      validateKeyAtTime secret (mkTokenP secret p) cur = .error .timeErr) := by
  rw [validate_mkTokenP secret p cur hA hdot]
  constructor
  · constructor
    · intro h
      by_contra hlen
      simp only [parsePayloadStr, if_neg (by omega : ¬ (jsSplit ':' p).length ≠ 2)] at h
      split at h
      · exact absurd h (by simp)
      split at h
      · exact absurd h (by simp)
      split at h
      · exact absurd h (by simp)
      split at h
      · exact absurd h (by simp)
      split at h
      · exact absurd h (by simp)
      split at h
      · exact absurd h (by simp)
      · exact absurd h (by simp)
    · intro hlen
      simp only [parsePayloadStr, if_pos hlen]
  · intro hlen hnone
    simp only [parsePayloadStr, if_neg (by omega : ¬ (jsSplit ':' p).length ≠ 2)]
    by_cases hemp : (jsSplit ':' p).getD 0 [] = [] ∨ (jsSplit ':' p).getD 1 [] = []
    · rw [if_pos hemp]
    · rw [if_neg hemp, if_pos hnone]

/-- Witness for C9 (amended): payload `"abc:1"` (non-numeric first
segment) signed with `"k"`. -/
theorem c9_witness :
    (validateKeyAtTime "k" (mkTokenP "k" ['a', 'b', 'c', ':', '1']) 0 =
        .error .invalidFormat ↔
      (jsSplit ':' ['a', 'b', 'c', ':', '1']).length ≠ 2) ∧
    ((jsSplit ':' ['a', 'b', 'c', ':', '1']).length = 2 →
      (jsParseInt ((jsSplit ':' ['a', 'b', 'c', ':', '1']).getD 0 []) = none ∨
       jsParseInt ((jsSplit ':' ['a', 'b', 'c', ':', '1']).getD 1 []) = none) →
      validateKeyAtTime "k" (mkTokenP "k" ['a', 'b', 'c', ':', '1']) 0 =
        .error .timeErr) :=
  c9_amended "k" ['a', 'b', 'c', ':', '1'] 0 (by decide) (by decide)

end AlvanLic
